import Mathlib

/-!
Verification of the hipBLASLt global-write batch emitter
(`src/tensilelite/Tensile/Components/GlobalWriteBatch.py`).

The Python code is a code generator: it emits the epilogue instruction
stream for one batch of output elements.  The definitions below are a
shallow embedding of the bookkeeping logic of that generator — the
atomic compare-and-swap retry-loop mask updates, the register-pool
checkout/checkin accounting, the wait-scoreboard counters, the
load-deduplication of the prolog, the precondition checks, and the
type-dispatch of the arithmetic/convert stages — together with theorems
about the properties the specification states for them.
-/

namespace GlobalWriteBatch

/-- The numeric data types handled by the emitter (`DataType` in the
Python sources). -/
inductive DType where
  | half
  | bfloat16
  | single
  | double
  | int8
  | int32
  | float8
  | bfloat8
  | singleComplex
  | doubleComplex
  deriving DecidableEq, Repr

/-- The `_GlobalAccumulation` kernel mode: falsy (`none`), or one of the
two buffer modes.  `multipleBuffer` is the "accumulation deferred to a
separate global buffer" mode of the spec. -/
inductive GAcc where
  | off
  | singleBuffer
  | multipleBuffer
  deriving DecidableEq, Repr

/-! ## C5: atomic preconditions (`_checkAtomicPreconditions`, lines 1298-1307,
and the `assert` at the top of `emit`, line 143). -/

/-- Batch configuration fields consulted by `_checkAtomicPreconditions`. -/
structure BatchCfg where
  atomic : Bool
  gwvw : Nat
  atomicW : Nat
  dataType : DType
  globalAccumulation : GAcc
  deriving DecidableEq, Repr

/-- Embedding of `GlobalWriteBatchWriter._checkAtomicPreconditions`
(GlobalWriteBatch.py lines 1298-1307). -/
def checkAtomicPreconditions (c : BatchCfg) : Bool :=
  if c.atomic then
    if c.atomicW > c.gwvw then false
    else if (c.dataType = DType.half ∨ c.dataType = DType.bfloat16)
            ∧ c.globalAccumulation = GAcc.off then
      decide (c.atomicW ≥ 2)
    else true
  else true

/-- Embedding of the entry of `GlobalWriteBatchWriter.emit` (line 142-148):
the precondition assert runs before any instruction is produced, so a
violation aborts with no instruction emitted. -/
def emitEntry (c : BatchCfg) : Except String Unit :=
  if checkAtomicPreconditions c then Except.ok () else Except.error "atomic precondition failed"

/-! ## C1: the compare-and-swap retry loop (`_emitCasAdd`,
lines 1065-1296).  The generated loop keeps one retry mask per batch
element.  Each retry iteration recomputes a mismatch-comparison mask
(`v_cmp_ne`) and ANDs it into the element's mask (line 1283:
`mask = tmpS01 & mask`); the masks are then OR-combined (lines
1287-1290) and the loop branches back (`s_cbranch_execnz`, line 1294)
only while the combined mask is non-zero.  Masks are modelled as
natural numbers viewed bitwise; the mismatch results observed from
racing writers are arbitrary. -/

/-- One element's retry-mask update in the retry loop: the new mask is
the bitwise AND of the mismatch-comparison result with the old mask
(line 1283). -/
def retryMaskUpdate (cmp old : Nat) : Nat := cmp &&& old

/-- One retry-loop iteration over all elements: every element's mask is
updated from that element's observed mismatch mask (lines 1265-1283). -/
def casIterate (cmps masks : List Nat) : List Nat :=
  List.zipWith retryMaskUpdate cmps masks

/-- The OR of all elements' retry masks (lines 1287-1290). -/
def combinedMask (masks : List Nat) : Nat :=
  masks.foldl (fun a b => a ||| b) 0

/-- The retry loop as a function of the finite sequence of
racer-observed mismatch masks: run one body, then branch back only if
the combined mask is non-zero (`s_cbranch_execnz`, line 1294). -/
def casRun (obs : List (List Nat)) (masks : List Nat) : List Nat :=
  match obs with
  | [] => masks
  | cmp :: rest =>
      let masks2 := casIterate cmp masks
      if combinedMask masks2 = 0 then masks2 else casRun rest masks2

/-- Entry into the retry loop after the first attempt: if the combined
mask is already empty the loop is skipped entirely
(`s_cbranch_execz` at line 1199). -/
def casEntry (obs : List (List Nat)) (masks : List Nat) : List Nat :=
  if combinedMask masks = 0 then masks else casRun obs masks

theorem land_lor_self (c o : Nat) : (c &&& o) ||| o = o := by
  apply Nat.eq_of_testBit_eq
  intro i
  simp only [Nat.testBit_or, Nat.testBit_and]
  cases hc : c.testBit i <;> cases ho : o.testBit i <;> rfl

theorem casIterate_getD_lor (cmp : List Nat) :
    ∀ (masks : List Nat) (i : Nat),
      ((casIterate cmp masks).getD i 0) ||| (masks.getD i 0) = masks.getD i 0 := by
  induction cmp with
  | nil =>
      intro masks i
      simp [casIterate]
  | cons c cs ih =>
      intro masks i
      cases masks with
      | nil => simp [casIterate]
      | cons m ms =>
          cases i with
          | zero => simpa [casIterate, retryMaskUpdate] using land_lor_self c m
          | succ j => simpa [casIterate] using ih ms j

/-- C1: In the compare-and-swap atomic path, each retry-loop iteration
strictly shrinks or preserves — never grows — every element's retry
mask (the new mask is the bitwise AND of the mismatch-comparison
result with the old mask), the loop is entered or re-entered only
while the OR of all masks is non-zero, and as soon as the combined
mask reaches empty the loop exits regardless of any further
racer-observed values. -/
theorem casLoop_masks_shrink_and_empty_exits
    (cmp : List Nat) (masks : List Nat) (rest obs : List (List Nat)) :
    (∀ i, ((casIterate cmp masks).getD i 0) ||| (masks.getD i 0) = masks.getD i 0) ∧
    (combinedMask masks = 0 → casEntry obs masks = masks) ∧
    (combinedMask (casIterate cmp masks) = 0 →
      casRun (cmp :: rest) masks = casIterate cmp masks) := by
  refine ⟨casIterate_getD_lor cmp masks, ?_, ?_⟩
  · intro h
    unfold casEntry
    rw [h]
    simp
  · intro h
    unfold casRun
    simp [h]

theorem casLoop_masks_shrink_and_empty_exits_witness :
    casEntry [[7]] [0, 0] = [0, 0] ∧ casRun [[4]] [3] = casIterate [4] [3] :=
  ⟨(casLoop_masks_shrink_and_empty_exits [7] [0, 0] [] [[7]]).2.1 (by decide),
   (casLoop_masks_shrink_and_empty_exits [4] [3] [] []).2.2 (by decide)⟩

theorem checkAtomicPreconditions_false_iff (c : BatchCfg) :
    checkAtomicPreconditions c = false ↔
      (c.atomic = true ∧ (c.gwvw < c.atomicW ∨
        ((c.dataType = DType.half ∨ c.dataType = DType.bfloat16) ∧
         c.globalAccumulation = GAcc.off ∧ c.atomicW < 2))) := by
  rcases c with ⟨atomic, gwvw, atomicW, dt, ga⟩
  cases atomic <;>
    simp only [checkAtomicPreconditions] <;>
    split_ifs <;>
    simp_all

/-- C5: emission aborts with a fatal precondition failure before
producing any instruction (the `assert` is the first statement of
`emit`) if and only if the batch is atomic and either the per-lane
atomic width exceeds the vector width, or the data type is half or
bfloat16 without global accumulation and the atomic width is below 2;
every other configuration passes the check and emission proceeds. -/
theorem emit_aborts_iff_atomic_precondition (c : BatchCfg) :
    emitEntry c = Except.error "atomic precondition failed" ↔
      (c.atomic = true ∧ (c.gwvw < c.atomicW ∨
        ((c.dataType = DType.half ∨ c.dataType = DType.bfloat16) ∧
         c.globalAccumulation = GAcc.off ∧ c.atomicW < 2))) := by
  rw [← checkAtomicPreconditions_false_iff]
  unfold emitEntry
  split_ifs with h <;> simp_all

/-! ## The prolog load scheduler (`_prolog`, lines 242-341): per-element
input loads for C (beta), E/residual, Bias and ScaleAlphaVec, each
deduplicated by staging data register.  For each input kind the loop
keeps a dictionary of already-loaded registers (`loadedDataBeta` etc.),
a running issued-loads counter (`loadsBetaIssued` etc., incremented by
the per-load size `k = ceil(bytes*gwvw/16)`), and a per-element record
(`betaLoadIssued` etc.) appended after every element with the current
number of distinct loaded registers times `k`. -/

/-- Result of running one input kind's load bookkeeping over a batch. -/
structure LoadRun where
  loaded : List Nat
  issuedCnt : Nat
  perElem : List Nat
  log : List Nat
  deriving Repr

/-- Embedding of one input kind's pass of the `_prolog` element loop
(e.g. the beta/C loads, lines 281-290): `k` is the per-load size,
`active` the kind's feature flag, `loaded` the dictionary of staging
registers already loaded, `cnt` the running issued counter.  The
returned `perElem` list records, per element, the loads covering it so
far; `log` records each actually issued load's staging register. -/
def runLoads (k : Nat) (active : Bool) (loaded : List Nat) (cnt : Nat) :
    List Nat → LoadRun
  | [] => ⟨loaded, cnt, [], []⟩
  | r :: rs =>
      if active then
        if r ∈ loaded then
          let rest := runLoads k active loaded cnt rs
          ⟨rest.loaded, rest.issuedCnt, loaded.length * k :: rest.perElem, rest.log⟩
        else
          let rest := runLoads k active (loaded ++ [r]) (cnt + k) rs
          ⟨rest.loaded, rest.issuedCnt, (loaded.length + 1) * k :: rest.perElem,
            r :: rest.log⟩
      else
        let rest := runLoads k active loaded cnt rs
        ⟨rest.loaded, rest.issuedCnt, loaded.length * k :: rest.perElem, rest.log⟩

theorem runLoads_false_eq (k : Nat) (loaded : List Nat) (cnt : Nat) :
    ∀ rs, runLoads k false loaded cnt rs =
      ⟨loaded, cnt, List.replicate rs.length (loaded.length * k), []⟩ := by
  intro rs
  induction rs with
  | nil => simp [runLoads]
  | cons r rs ih => simp [runLoads, ih, List.replicate_succ]

theorem runLoads_loaded_prefix (k : Nat) :
    ∀ (rs : List Nat) (loaded : List Nat) (cnt : Nat),
      ∃ ext, (runLoads k true loaded cnt rs).loaded = loaded ++ ext := by
  intro rs
  induction rs with
  | nil => intro loaded cnt; exact ⟨[], by simp [runLoads]⟩
  | cons r rs ih =>
      intro loaded cnt
      by_cases hr : r ∈ loaded
      · rcases ih loaded cnt with ⟨ext, hext⟩
        refine ⟨ext, ?_⟩
        rw [runLoads, if_pos rfl, if_pos hr]
        exact hext
      · rcases ih (loaded ++ [r]) (cnt + k) with ⟨ext, hext⟩
        refine ⟨[r] ++ ext, ?_⟩
        rw [runLoads, if_pos rfl, if_neg hr]
        rw [hext, List.append_assoc]

theorem runLoads_issuedCnt (k : Nat) :
    ∀ (rs : List Nat) (loaded : List Nat) (cnt : Nat),
      (runLoads k true loaded cnt rs).issuedCnt + loaded.length * k =
        cnt + (runLoads k true loaded cnt rs).loaded.length * k := by
  intro rs
  induction rs with
  | nil => intro loaded cnt; simp [runLoads]
  | cons r rs ih =>
      intro loaded cnt
      by_cases hr : r ∈ loaded
      · rw [runLoads, if_pos rfl, if_pos hr]
        exact ih loaded cnt
      · rw [runLoads, if_pos rfl, if_neg hr]
        have h := ih (loaded ++ [r]) (cnt + k)
        simp only [List.length_append, List.length_cons, List.length_nil,
          Nat.add_mul, Nat.one_mul, Nat.zero_add] at h ⊢
        omega

theorem runLoads_perElem_le (k : Nat) :
    ∀ (rs : List Nat) (loaded : List Nat) (cnt : Nat) (x : Nat),
      x ∈ (runLoads k true loaded cnt rs).perElem →
        x ≤ (runLoads k true loaded cnt rs).loaded.length * k := by
  intro rs
  induction rs with
  | nil => intro loaded cnt x hx; simp [runLoads] at hx
  | cons r rs ih =>
      intro loaded cnt x hx
      by_cases hr : r ∈ loaded
      · rw [runLoads, if_pos rfl, if_pos hr] at hx ⊢
        rcases List.mem_cons.mp hx with hx | hx
        · subst hx
          rcases runLoads_loaded_prefix k rs loaded cnt with ⟨ext, hext⟩
          rw [hext]
          simp only [List.length_append]
          exact Nat.mul_le_mul_right k (by omega)
        · exact ih _ _ x hx
      · rw [runLoads, if_pos rfl, if_neg hr] at hx ⊢
        rcases List.mem_cons.mp hx with hx | hx
        · subst hx
          rcases runLoads_loaded_prefix k rs (loaded ++ [r]) (cnt + k) with ⟨ext, hext⟩
          rw [hext]
          simp only [List.length_append, List.length_cons, List.length_nil]
          exact Nat.mul_le_mul_right k (by omega)
        · exact ih _ _ x hx

theorem runLoads_log_count (k : Nat) (r : Nat) :
    ∀ (rs : List Nat) (loaded : List Nat) (cnt : Nat),
      (runLoads k true loaded cnt rs).log.count r =
        if r ∈ rs ∧ r ∉ loaded then 1 else 0 := by
  intro rs
  induction rs with
  | nil => intro loaded cnt; simp [runLoads]
  | cons r0 rs ih =>
      intro loaded cnt
      by_cases hr0 : r0 ∈ loaded
      · rw [runLoads, if_pos rfl, if_pos hr0]
        rw [ih loaded cnt]
        by_cases hr : r = r0
        · subst hr
          simp [hr0]
        · simp [hr]
      · rw [runLoads, if_pos rfl, if_neg hr0]
        rw [List.count_cons, ih (loaded ++ [r0]) (cnt + k)]
        by_cases hr : r = r0
        · subst hr
          have hmem : r ∈ loaded ++ [r] := by simp
          simp [hmem, hr0]
        · have hiff : (r ∈ loaded ++ [r0]) ↔ r ∈ loaded := by simp [hr]
          by_cases hrs : r ∈ rs <;> by_cases hl : r ∈ loaded <;>
            simp [hr, hrs, hl, hiff, Ne.symm hr]

theorem runLoads_perElem_distinct (k : Nat) :
    ∀ (rs : List Nat) (loaded : List Nat) (cnt : Nat) (i : Nat),
      loaded.Nodup → i < rs.length →
      (runLoads k true loaded cnt rs).perElem.getD i 0 =
        (loaded.toFinset ∪ (rs.take (i + 1)).toFinset).card * k := by
  intro rs
  induction rs with
  | nil =>
      intro loaded cnt i _ hi
      exact absurd hi (by simp)
  | cons r rs ih =>
      intro loaded cnt i hnd hi
      by_cases hr : r ∈ loaded
      · rw [runLoads, if_pos rfl, if_pos hr]
        cases i with
        | zero =>
            simp only [List.getD_cons_zero, List.take, List.toFinset_cons,
              Finset.union_insert]
            rw [Finset.insert_eq_self.mpr
              (Finset.mem_union_left _ (List.mem_toFinset.mpr hr))]
            simp [List.toFinset_card_of_nodup hnd]
        | succ j =>
            simp only [List.getD_cons_succ]
            rw [ih loaded cnt j hnd (by simpa using hi)]
            congr 1
            simp only [List.take, List.toFinset_cons, Finset.union_insert]
            rw [Finset.insert_eq_self.mpr
              (Finset.mem_union_left _ (List.mem_toFinset.mpr hr))]
      · rw [runLoads, if_pos rfl, if_neg hr]
        have hnd2 : (loaded ++ [r]).Nodup := by
          rw [List.nodup_append]
          exact ⟨hnd, List.nodup_singleton r, by simpa using hr⟩
        cases i with
        | zero =>
            simp only [List.getD_cons_zero, List.take, List.toFinset_cons,
              Finset.union_insert]
            rw [Finset.card_insert_of_not_mem]
            · simp [List.toFinset_card_of_nodup hnd]
            · intro hmem
              rcases Finset.mem_union.mp hmem with h | h
              · exact hr (List.mem_toFinset.mp h)
              · simp at h
        | succ j =>
            simp only [List.getD_cons_succ]
            rw [ih (loaded ++ [r]) (cnt + k) j hnd2 (by simpa using hi)]
            congr 1
            simp only [List.take, List.toFinset_cons, List.toFinset_append,
              Finset.union_insert]
            simp [Finset.insert_union, Finset.union_insert, Finset.union_assoc]

/-- C4: For every batch and every input kind (C-for-beta, E/residual,
Bias, ScaleAlphaVec), the prolog deduplicates loads by staging data
register: over the whole batch, exactly one load is issued per distinct
referenced staging register (and none for registers no element
references), while each element's own loads-issued-so-far record still
counts every distinct register loaded up to and including that element
— loads another element already issued included.  (`_prolog`,
lines 281-290 for C, 292-305 for E, 307-325 for Bias, 327-341 for
ScaleAlphaVec; each of these passes is `runLoads` with its own flag and
per-load size.) -/
theorem load_dedup_once_per_register (k : Nat) (regs : List Nat) (r : Nat)
    (i : Nat) (hi : i < regs.length) :
    ((runLoads k true [] 0 regs).log.count r = if r ∈ regs then 1 else 0) ∧
    ((runLoads k true [] 0 regs).perElem.getD i 0 =
        ((regs.take (i + 1)).toFinset).card * k) := by
  constructor
  · rw [runLoads_log_count k r regs [] 0]
    simp
  · rw [runLoads_perElem_distinct k regs [] 0 i (List.nodup_nil) hi]
    simp

theorem load_dedup_once_per_register_witness :
    (runLoads 2 true [] 0 [5, 7, 5]).log.count 5 = (if 5 ∈ [5, 7, 5] then 1 else 0) ∧
    (runLoads 2 true [] 0 [5, 7, 5]).perElem.getD 2 0 =
      (([5, 7, 5].take 3).toFinset).card * 2 :=
  load_dedup_once_per_register 2 [5, 7, 5] 5 2 (by decide)

/-! ## C3: the interleaved wait scoreboard of the non-atomic store path
(`_emitNonatomicAdd`, lines 597-653).  The totals of issued loads are
the `loadsBetaIssued + loadsEIssued + loadsScaleAlphaVecIssued` sum for
the vector-memory class and `localLoadsBiasIssued` for the local class;
the per-element covered count is the flag-guarded sum of the
per-element records from the prolog; the wait request and elision
decision is lines 617-630. -/

/-- Feature flags guarding the four input-load kinds (`self.beta`,
`self.loadE`, `useBias == DataDirection.READ`, and
`UseScaleAlphaVec and GlobalSplitU == 1`). -/
structure LoadFlags where
  beta : Bool
  loadE : Bool
  biasRead : Bool
  scaleAlphaVec : Bool
  deriving DecidableEq, Repr

/-- Per-load sizes of the four kinds: `ceil(numBytes * gwvw / 16)` for
the relevant data type of each kind. -/
structure LoadSizes where
  kBeta : Nat
  kE : Nat
  kBias : Nat
  kSAV : Nat
  deriving DecidableEq, Repr

/-- Per-kind staging data registers of the batch elements
(`ss.elementData`, `ss.elementDataE`, `ss.elementDataBias`,
`ss.elementDataScaleAlphaVec`). -/
structure BatchRegs where
  dataBeta : List Nat
  dataE : List Nat
  dataBias : List Nat
  dataSAV : List Nat
  deriving DecidableEq, Repr

def betaRun (f : LoadFlags) (sz : LoadSizes) (b : BatchRegs) : LoadRun :=
  runLoads sz.kBeta f.beta [] 0 b.dataBeta

def eRun (f : LoadFlags) (sz : LoadSizes) (b : BatchRegs) : LoadRun :=
  runLoads sz.kE f.loadE [] 0 b.dataE

def biasRun (f : LoadFlags) (sz : LoadSizes) (b : BatchRegs) : LoadRun :=
  runLoads sz.kBias f.biasRead [] 0 b.dataBias

def savRun (f : LoadFlags) (sz : LoadSizes) (b : BatchRegs) : LoadRun :=
  runLoads sz.kSAV f.scaleAlphaVec [] 0 b.dataSAV

/-- Embedding of `self.loadsBetaIssued + self.loadsEIssued +
self.loadsScaleAlphaVecIssued` (line 618): total issued vector-memory
loads of the batch. -/
def totalVmLoads (f : LoadFlags) (sz : LoadSizes) (b : BatchRegs) : Nat :=
  (betaRun f sz b).issuedCnt + (eRun f sz b).issuedCnt + (savRun f sz b).issuedCnt

/-- Embedding of `waitLoadCnt` for element `i` (lines 602-611): flag-guarded sum of
the per-element records from the prolog. -/
def coveredVmLoads (f : LoadFlags) (sz : LoadSizes) (b : BatchRegs) (i : Nat) : Nat :=
  (if f.beta then (betaRun f sz b).perElem.getD i 0 else 0)
  + (if f.loadE then (eRun f sz b).perElem.getD i 0 else 0)
  + (if f.scaleAlphaVec then (savRun f sz b).perElem.getD i 0 else 0)

/-- Embedding of `self.localLoadsBiasIssued` (line 625). -/
def totalLdsLoads (f : LoadFlags) (sz : LoadSizes) (b : BatchRegs) : Nat :=
  (biasRun f sz b).issuedCnt

/-- Embedding of `waitLocalLoadCnt` for element `i` (lines 613-615). -/
def coveredLdsLoads (f : LoadFlags) (sz : LoadSizes) (b : BatchRegs) (i : Nat) : Nat :=
  if f.biasRead then (biasRun f sz b).perElem.getD i 0 else 0

/-- The wait request/elision decision of lines 617-630, for one counter
class: given the batch total, the covered count of the current element,
and the running `waitCnter` entry, return the requested wait count
(`-1` means the wait is elided) and the new counter entry.  The same
code shape handles `vmcnt` (lines 617-623) and `lgkmcnt`
(lines 624-630). -/
def waitDecision (total covered : Nat) (cnter : Int) : Int × Int :=
  if 0 < cnter then
    if cnter = (total : Int) - (covered : Int) then (-1, -1)
    else ((total : Int) - (covered : Int), (total : Int) - (covered : Int))
  else (-1, cnter)

theorem runLoads_getD_le_issued (k : Nat) (active : Bool) (rs : List Nat) (i : Nat) :
    (runLoads k active [] 0 rs).perElem.getD i 0 ≤ (runLoads k active [] 0 rs).issuedCnt := by
  cases active with
  | false =>
      rw [runLoads_false_eq]
      simp only [List.length_nil, Nat.zero_mul]
      by_cases hi : i < rs.length
      · rw [List.getD_eq_getElem?_getD, List.getElem?_replicate]
        simp [hi]
      · rw [List.getD_eq_getElem?_getD,
          List.getElem?_eq_none (by simp; omega)]
        simp
  | true =>
      have hcnt := runLoads_issuedCnt k rs [] 0
      simp only [List.length_nil, Nat.zero_mul, Nat.add_zero, Nat.zero_add] at hcnt
      rw [hcnt]
      by_cases hi : i < (runLoads k true [] 0 rs).perElem.length
      · have hmem : (runLoads k true [] 0 rs).perElem.getD i 0 ∈
            (runLoads k true [] 0 rs).perElem := by
          rw [List.getD_eq_getElem?_getD, List.getElem?_eq_getElem hi]
          simp only [Option.getD_some]
          exact List.getElem_mem hi
        exact runLoads_perElem_le k rs [] 0 _ hmem
      · rw [List.getD_eq_getElem?_getD, List.getElem?_eq_none (by omega)]
        simp

theorem coveredVmLoads_le_total (f : LoadFlags) (sz : LoadSizes) (b : BatchRegs) (i : Nat) :
    coveredVmLoads f sz b i ≤ totalVmLoads f sz b := by
  unfold coveredVmLoads totalVmLoads
  have h1 := runLoads_getD_le_issued sz.kBeta f.beta b.dataBeta i
  have h2 := runLoads_getD_le_issued sz.kE f.loadE b.dataE i
  have h3 := runLoads_getD_le_issued sz.kSAV f.scaleAlphaVec b.dataSAV i
  unfold betaRun eRun savRun
  split_ifs <;> omega

theorem coveredLdsLoads_le_total (f : LoadFlags) (sz : LoadSizes) (b : BatchRegs) (i : Nat) :
    coveredLdsLoads f sz b i ≤ totalLdsLoads f sz b := by
  unfold coveredLdsLoads totalLdsLoads biasRun
  have h := runLoads_getD_le_issued sz.kBias f.biasRead b.dataBias i
  split_ifs <;> omega

theorem waitDecision_emitted (total covered : Nat) (cnter : Int)
    (hcov : covered ≤ total)
    (hne : (waitDecision total covered cnter).1 ≠ -1) :
    (waitDecision total covered cnter).1 = (total : Int) - (covered : Int) ∧
    0 ≤ (waitDecision total covered cnter).1 ∧
    (waitDecision total covered cnter).1 ≤ (total : Int) := by
  unfold waitDecision at hne ⊢
  split_ifs at hne ⊢ with h1 h2
  · exact absurd rfl hne
  · exact ⟨rfl, by omega, by omega⟩
  · exact absurd rfl hne

theorem waitDecision_elided (total covered : Nat) (cnter : Int)
    (heq : cnter = (total : Int) - (covered : Int)) :
    (waitDecision total covered cnter).1 = -1 := by
  unfold waitDecision
  by_cases h1 : 0 < cnter
  · rw [if_pos h1, if_pos heq]
  · rw [if_neg h1]

/-- C3: In the non-atomic store path, every interleaved wait that is
actually emitted requests exactly the total number of issued loads of
its memory class minus the loads already covered for the current
element; since the covered count never exceeds the total, the request
is never below zero and never above the number of truly outstanding
operations; and a wait whose requested count would equal the running
counter (the previously recorded wait value) is elided entirely.
Both the vector-memory class and the local (bias LDS) class use the
same decision. -/
theorem nonatomic_wait_counts_correct (f : LoadFlags) (sz : LoadSizes)
    (b : BatchRegs) (i : Nat) (vmCnter ldsCnter : Int)
    (hvm : (waitDecision (totalVmLoads f sz b) (coveredVmLoads f sz b i) vmCnter).1 ≠ -1) :
    ((waitDecision (totalVmLoads f sz b) (coveredVmLoads f sz b i) vmCnter).1 =
        ((totalVmLoads f sz b : Int) - (coveredVmLoads f sz b i : Int)) ∧
      0 ≤ (waitDecision (totalVmLoads f sz b) (coveredVmLoads f sz b i) vmCnter).1 ∧
      (waitDecision (totalVmLoads f sz b) (coveredVmLoads f sz b i) vmCnter).1 ≤
        (totalVmLoads f sz b : Int)) ∧
    (vmCnter = ((totalVmLoads f sz b : Int) - (coveredVmLoads f sz b i : Int)) →
      (waitDecision (totalVmLoads f sz b) (coveredVmLoads f sz b i) vmCnter).1 = -1) ∧
    (coveredLdsLoads f sz b i ≤ totalLdsLoads f sz b) ∧
    ((waitDecision (totalLdsLoads f sz b) (coveredLdsLoads f sz b i) ldsCnter).1 ≠ -1 →
      (waitDecision (totalLdsLoads f sz b) (coveredLdsLoads f sz b i) ldsCnter).1 =
        ((totalLdsLoads f sz b : Int) - (coveredLdsLoads f sz b i : Int)) ∧
      (waitDecision (totalLdsLoads f sz b) (coveredLdsLoads f sz b i) ldsCnter).1 ≤
        (totalLdsLoads f sz b : Int)) := by
  refine ⟨waitDecision_emitted _ _ _ (coveredVmLoads_le_total f sz b i) hvm,
    fun heq => waitDecision_elided _ _ _ heq,
    coveredLdsLoads_le_total f sz b i,
    fun hlds => ?_⟩
  rcases waitDecision_emitted _ _ _ (coveredLdsLoads_le_total f sz b i) hlds with
    ⟨h1, _, h3⟩
  exact ⟨h1, h3⟩

theorem nonatomic_wait_counts_correct_witness :
    (waitDecision
        (totalVmLoads ⟨true, false, false, false⟩ ⟨1, 1, 1, 1⟩ ⟨[4, 4, 6], [], [], []⟩)
        (coveredVmLoads ⟨true, false, false, false⟩ ⟨1, 1, 1, 1⟩ ⟨[4, 4, 6], [], [], []⟩ 0) 2).1 =
      ((totalVmLoads ⟨true, false, false, false⟩ ⟨1, 1, 1, 1⟩ ⟨[4, 4, 6], [], [], []⟩ : Int) -
        (coveredVmLoads ⟨true, false, false, false⟩ ⟨1, 1, 1, 1⟩ ⟨[4, 4, 6], [], [], []⟩ 0 : Int)) :=
  (nonatomic_wait_counts_correct ⟨true, false, false, false⟩ ⟨1, 1, 1, 1⟩
    ⟨[4, 4, 6], [], [], []⟩ 0 2 0 (by decide)).1.1

/-! ## C6: alpha placement in the prolog (lines 229-240 and 410-420)
and ordering invariance of the final value.

`_prolog` applies `rC *= alpha` to every batch element in exactly one
of two places when `InterleaveAlpha` is off and `applyAlpha` is on:
before the address/load element loop when `alphaBeforeLoadC` is set
(lines 231-240), and after the loop, the grouped-load block and the
accumulator read otherwise (lines 411-420).  The events below model
those regions of `_prolog` at stage granularity: `loadPhase` stands
for the whole address-setup/input-load region (lines 242-390,
including the appended grouped-load sub-stream) and `accRead` for the
accumulator-read block (lines 396-408). -/

inductive PrologEvent where
  | alphaScale (e : Nat)
  | loadPhase
  | accRead
  deriving DecidableEq, Repr

/-- The stage order of `_prolog` as a function of `InterleaveAlpha`,
`applyAlpha` and `alphaBeforeLoadC`, for a batch of `n` elements. -/
def prologStageEvents (interleaveAlpha applyAlpha alphaBeforeLoadC : Bool)
    (n : Nat) : List PrologEvent :=
  (if !interleaveAlpha && applyAlpha && alphaBeforeLoadC then
      (List.range n).map PrologEvent.alphaScale
    else [])
  ++ [PrologEvent.loadPhase]
  ++ [PrologEvent.accRead]
  ++ (if !interleaveAlpha && applyAlpha && !alphaBeforeLoadC then
      (List.range n).map PrologEvent.alphaScale
    else [])

/-- The value-relevant operations on one output scalar: alpha scale
(`VMulF32 dst=alpha*acc`, line 1349), the load of the original C value
into the staging register, and the beta accumulate
(`VMacF32 acc += c*beta`, line 1445, single-precision path). -/
inductive ArithOp where
  | mulAlpha
  | loadC
  | betaAcc
  deriving DecidableEq, Repr

/-- Register state of one output scalar: the accumulator and the
staged C register. -/
structure ArithState where
  acc : ℚ
  cReg : ℚ
  deriving DecidableEq, Repr

def arithStep (alpha beta cMem : ℚ) (s : ArithState) : ArithOp → ArithState
  | ArithOp.mulAlpha => ⟨alpha * s.acc, s.cReg⟩
  | ArithOp.loadC => ⟨s.acc, cMem⟩
  | ArithOp.betaAcc => ⟨s.acc + s.cReg * beta, s.cReg⟩

def runArith (alpha beta cMem : ℚ) (ops : List ArithOp) (s : ArithState) : ArithState :=
  ops.foldl (arithStep alpha beta cMem) s

/-- The per-scalar operation order induced by the two possible alpha
placements: alpha before the C load, or after it; the beta accumulate
(`_addSumAlphaWithCBeta`) always runs after both. -/
def arithOpsOrder (alphaBeforeLoadC : Bool) : List ArithOp :=
  if alphaBeforeLoadC then [ArithOp.mulAlpha, ArithOp.loadC, ArithOp.betaAcc]
  else [ArithOp.loadC, ArithOp.mulAlpha, ArithOp.betaAcc]

theorem count_alphaScale_range (n e : Nat) (he : e < n) :
    ((List.range n).map PrologEvent.alphaScale).count (PrologEvent.alphaScale e) = 1 := by
  rw [List.count_map_of_injective _ _ (fun a b h => PrologEvent.alphaScale.inj h)]
  exact List.count_eq_one_of_mem (List.nodup_range n) (List.mem_range.mpr he)

/-- C6: For every batch with `applyAlpha` enabled and alpha not
interleaved, the alpha-scale stage runs exactly once per element,
placed before the C-load phase exactly when `alphaBeforeLoadC` is set
and after it otherwise; and for `beta=true` the final accumulator value
is `alpha*raw + beta*loadedC` under either of the two orderings. -/
theorem alpha_once_per_element_and_order_invariant
    (before : Bool) (n e : Nat) (he : e < n) (alpha beta raw c : ℚ) :
    ((prologStageEvents false true before n).count (PrologEvent.alphaScale e) = 1) ∧
    (∃ pre post,
      prologStageEvents false true before n = pre ++ PrologEvent.loadPhase :: post ∧
      PrologEvent.loadPhase ∉ pre ∧
      (if before then
          PrologEvent.alphaScale e ∈ pre ∧ PrologEvent.alphaScale e ∉ post
        else
          PrologEvent.alphaScale e ∉ pre ∧ PrologEvent.alphaScale e ∈ post)) ∧
    ((runArith alpha beta c (arithOpsOrder true) ⟨raw, 0⟩).acc = alpha * raw + beta * c ∧
     (runArith alpha beta c (arithOpsOrder false) ⟨raw, 0⟩).acc = alpha * raw + beta * c) := by
  refine ⟨?_, ?_, ?_, ?_⟩
  · cases before with
    | true =>
        simp only [prologStageEvents, Bool.not_false, Bool.and_self, Bool.and_true,
          Bool.not_true, Bool.and_false, if_true, if_false, List.count_append]
        rw [count_alphaScale_range n e he]
        simp
    | false =>
        simp only [prologStageEvents, Bool.not_false, Bool.and_self, Bool.and_true,
          Bool.not_true, Bool.and_false, if_true, if_false, List.count_append]
        rw [count_alphaScale_range n e he]
        simp
  · cases before with
    | true =>
        refine ⟨(List.range n).map PrologEvent.alphaScale, [PrologEvent.accRead],
          ?_, ?_, ?_⟩
        · simp [prologStageEvents]
        · simp
        · rw [if_pos rfl]
          exact ⟨List.mem_map.mpr ⟨e, List.mem_range.mpr he, rfl⟩, by simp⟩
    | false =>
        refine ⟨[], PrologEvent.accRead :: (List.range n).map PrologEvent.alphaScale,
          ?_, ?_, ?_⟩
        · simp [prologStageEvents]
        · simp
        · rw [if_neg (by simp)]
          refine ⟨by simp, ?_⟩
          exact List.mem_cons_of_mem _ (List.mem_map.mpr ⟨e, List.mem_range.mpr he, rfl⟩)
  · simp only [runArith, arithOpsOrder, if_true, List.foldl, arithStep]
    ring
  · simp only [runArith, arithOpsOrder, if_false, List.foldl, arithStep]
    ring

theorem alpha_once_per_element_and_order_invariant_witness :
    (prologStageEvents false true true 2).count (PrologEvent.alphaScale 0) = 1 :=
  (alpha_once_per_element_and_order_invariant true 2 0 (by decide) 1 1 1 1).1

/-! ## C7/C8: the alpha-scale instruction bodies (`_applyAlpha`,
lines 1313-1389) and the pack/convert stage (`_emitNonatomicAdd`,
lines 905-942). -/

/-- Instruction markers for `_applyAlpha`'s per-type bodies. -/
inductive AlphaInstr where
  | mulPkF16
  | mulLoU32
  | cvtItoF
  | mulF32
  | mulF64
  | movB32
  | macF32
  | fmaF64
  deriving DecidableEq, Repr

/-- The per-vi instruction bodies of `_applyAlpha` (lines 1320-1388),
one branch per compute data type; debug-only emissions are omitted. -/
def applyAlphaBody (computeType : DType) (hpa dataTypeInt8 : Bool)
    (sumIdx gwvw : Nat) : List AlphaInstr :=
  (List.range gwvw).flatMap fun vi =>
    if computeType = DType.half ∧ ¬hpa then
      if (sumIdx + vi) % 2 = 1 then [AlphaInstr.mulPkF16] else []
    else if computeType = DType.int32 then [AlphaInstr.mulLoU32]
    else if computeType = DType.single ∨ (computeType = DType.half ∧ hpa) then
      if dataTypeInt8 ∧ hpa then [AlphaInstr.cvtItoF, AlphaInstr.mulF32]
      else [AlphaInstr.mulF32]
    else if computeType = DType.double then [AlphaInstr.mulF64]
    else if computeType = DType.singleComplex then
      [AlphaInstr.movB32, AlphaInstr.mulF32, AlphaInstr.macF32,
        AlphaInstr.mulF32, AlphaInstr.macF32]
    else if computeType = DType.doubleComplex then
      [AlphaInstr.mulF64, AlphaInstr.mulF64, AlphaInstr.fmaF64, AlphaInstr.fmaF64]
    else []

/-- Embedding of `_applyAlpha` entry (lines 1313-1319): returns an empty module at once
when `_GlobalAccumulation == 'MultipleBuffer'`; otherwise emits the
per-type body when the `ApplyAlpha` switch is on. -/
def applyAlphaInstrs (ga : GAcc) (doApplyAlpha : Bool) (computeType : DType)
    (hpa dataTypeInt8 : Bool) (sumIdx gwvw : Nat) : List AlphaInstr :=
  if ga = GAcc.multipleBuffer then []
  else if doApplyAlpha then applyAlphaBody computeType hpa dataTypeInt8 sumIdx gwvw
  else []

/-- Instruction markers for the pack/convert stage.  The `pack...`
markers stand for the external PackData component invocations of
lines 913-933; the convert markers are the instructions of
`convertData` (lines 1575-1589); `wmmaPackF16` is the
pack-with-neighbor of lines 935-942. -/
inductive PackInstr where
  | packHalf
  | packBF16
  | packFp8
  | packBf8
  | packInt8
  | rndneF32 (v : Nat)
  | cvtF32toI32 (v : Nat)
  | cvtI32toF32 (v : Nat)
  | wmmaPackF16 (vi : Nat)
  deriving DecidableEq, Repr

/-- The two conversion kinds `convertData` supports (its `else` branch
is `assert 0`). -/
inductive CvtKind where
  | f32ToI32
  | i32ToF32
  deriving DecidableEq, Repr

inductive RoundKind where
  | roundUp
  | roundToNearestEven
  deriving DecidableEq, Repr

/-- Embedding of `convertData` (lines 1575-1589): per vi, an optional
round-to-nearest-even (`VRndneF32`) when requested, then the convert
instruction. -/
def convertData (gwvw sumIdx : Nat) (cvt : CvtKind) (round : RoundKind) :
    List PackInstr :=
  (List.range gwvw).flatMap fun vi =>
    match cvt with
    | CvtKind.f32ToI32 =>
        (if round = RoundKind.roundToNearestEven then
            [PackInstr.rndneF32 (sumIdx + vi)]
          else []) ++ [PackInstr.cvtF32toI32 (sumIdx + vi)]
    | CvtKind.i32ToF32 => [PackInstr.cvtI32toF32 (sumIdx + vi)]

/-- The flags consulted by the pack/convert stage of
`_emitNonatomicAdd` (lines 905-942). -/
structure PackFlags where
  hpa : Bool
  ga : GAcc
  dest : DType
  compute : DType
  useBiasRead : Bool
  actFuncCall : Bool
  applyAlpha : Bool
  beta : Bool
  hasWMMA : Bool
  enableMatrixInstruction : Bool
  deriving DecidableEq, Repr

/-- The `convertModule` built at lines 906-933: only under
`HighPrecisionAccumulate and _GlobalAccumulation != 'MultipleBuffer'`,
and only for int32/int8 destinations with single compute and one of
the accumulating features on; int8 requests round-to-nearest-even. -/
def hpaConvertModule (p : PackFlags) (gwvw sumIdx : Nat) : List PackInstr :=
  if p.hpa = true ∧ p.ga ≠ GAcc.multipleBuffer then
    if p.dest = DType.int32 then
      if p.compute = DType.single ∧
          (p.useBiasRead ∨ p.actFuncCall ∨ p.applyAlpha ∨ p.beta) then
        convertData gwvw sumIdx CvtKind.f32ToI32 RoundKind.roundUp
      else []
    else if p.dest = DType.int8 then
      if p.compute = DType.single ∧
          (p.useBiasRead ∨ p.actFuncCall ∨ p.applyAlpha ∨ p.beta) then
        convertData gwvw sumIdx CvtKind.f32ToI32 RoundKind.roundToNearestEven
      else []
    else []
  else []

/-- The `packModule` contributions of the guarded block at
lines 906-933: per destination type, one external PackData invocation
(modelled as one marker). -/
def hpaPackModule (p : PackFlags) : List PackInstr :=
  if p.hpa = true ∧ p.ga ≠ GAcc.multipleBuffer then
    if p.dest = DType.half then [PackInstr.packHalf]
    else if p.dest = DType.bfloat16 then [PackInstr.packBF16]
    else if p.dest = DType.float8 then [PackInstr.packFp8]
    else if p.dest = DType.bfloat8 then [PackInstr.packBf8]
    else if p.dest = DType.int8 then [PackInstr.packInt8]
    else []
  else []

/-- The pack-with-neighbor loop of lines 935-942: for WMMA targets with
matrix instructions, half destination and no high-precision
accumulation, odd sub-vector indices pack pairwise.  This block is not
guarded by the `_GlobalAccumulation` mode. -/
def wmmaPackModule (p : PackFlags) (gwvw : Nat) : List PackInstr :=
  if p.hasWMMA = true ∧ p.enableMatrixInstruction = true ∧
      p.dest = DType.half ∧ p.hpa = false then
    ((List.range gwvw).filter (fun vi => vi % 2 = 1)).map PackInstr.wmmaPackF16
  else []

/-- The full pack/convert stage emission order: `convertModule` is
added before `packModule` (lines 949-960), and the WMMA pairwise packs
were appended to `packModule` after the guarded block. -/
def packStage (p : PackFlags) (gwvw sumIdx : Nat) : List PackInstr :=
  hpaConvertModule p gwvw sumIdx ++ hpaPackModule p ++ wmmaPackModule p gwvw

/-- C7 (counterexample): the pack/convert stage is not always skipped
under deferred global accumulation — with `MultipleBuffer`, a WMMA
target with matrix instructions, half destination, no high-precision
accumulation and vector width 2, the pairwise half pack of
lines 935-942 is still emitted. -/
theorem packStage_not_skipped_under_multipleBuffer :
    packStage ⟨false, GAcc.multipleBuffer, DType.half, DType.single,
      false, false, true, false, true, true⟩ 2 0 ≠ [] := by
  decide

/-- C7 (amended): when accumulation is deferred to a separate global
buffer (`_GlobalAccumulation == 'MultipleBuffer'`), the alpha-scale
stage emits no instructions and the high-precision-accumulate
pack/convert block (lines 906-933) contributes nothing; the only
possible pack instructions are the WMMA pairwise half packs of
lines 935-942, which are not gated on the accumulation mode. -/
theorem multipleBuffer_skips_alpha_and_hpa_pack
    (p : PackFlags) (doApplyAlpha hpa dataTypeInt8 : Bool)
    (computeType : DType) (gwvw sumIdx : Nat)
    (hga : p.ga = GAcc.multipleBuffer) :
    applyAlphaInstrs GAcc.multipleBuffer doApplyAlpha computeType hpa
        dataTypeInt8 sumIdx gwvw = [] ∧
    hpaConvertModule p gwvw sumIdx = [] ∧
    hpaPackModule p = [] ∧
    packStage p gwvw sumIdx = wmmaPackModule p gwvw := by
  have hc : ¬(p.hpa = true ∧ p.ga ≠ GAcc.multipleBuffer) := by
    rintro ⟨-, hne⟩
    exact hne hga
  refine ⟨?_, ?_, ?_, ?_⟩
  · simp [applyAlphaInstrs]
  · simp [hpaConvertModule, hc]
  · simp [hpaPackModule, hc]
  · simp [packStage, hpaConvertModule, hpaPackModule, hc]

theorem multipleBuffer_skips_alpha_and_hpa_pack_witness :
    applyAlphaInstrs GAcc.multipleBuffer true DType.single true false 0 2 = [] ∧
    hpaConvertModule ⟨true, GAcc.multipleBuffer, DType.int8, DType.single,
      false, false, true, false, false, false⟩ 2 0 = [] ∧
    hpaPackModule ⟨true, GAcc.multipleBuffer, DType.int8, DType.single,
      false, false, true, false, false, false⟩ = [] ∧
    packStage ⟨true, GAcc.multipleBuffer, DType.int8, DType.single,
      false, false, true, false, false, false⟩ 2 0 =
      wmmaPackModule ⟨true, GAcc.multipleBuffer, DType.int8, DType.single,
        false, false, true, false, false, false⟩ 2 :=
  multipleBuffer_skips_alpha_and_hpa_pack _ true true false DType.single 2 0 rfl

/-- Round to nearest, ties to even, of a rational value: the semantics
of `VRndneF32`. -/
def rndneQ (q : ℚ) : Int :=
  if q - (⌊q⌋ : ℚ) < 1 / 2 then ⌊q⌋
  else if (1 : ℚ) / 2 < q - (⌊q⌋ : ℚ) then ⌊q⌋ + 1
  else if ⌊q⌋ % 2 = 0 then ⌊q⌋ else ⌊q⌋ + 1

/-- Modelled from the spec: the saturating int8 cast of the external
int8 PackData component (the `packdata` call at lines 932-933 with
`SaturateTypeInt8`), which clamps the converted int32 value to the
int8 range. -/
def satCastI8 (x : Int) : Int := max (-128) (min 127 x)

/-- The value stored by the int8 path: round to nearest even, convert
to int32 (exact on the already-rounded value), then saturating int8
pack. -/
def int8StoredValue (q : ℚ) : Int := satCastI8 (rndneQ q)

/-- C8: For a non-atomic batch with int8 destination, single-precision
compute and high-precision accumulation (and an accumulating feature
on), the emitted conversion sequence is, per sub-vector index, a
round-to-nearest-even rounding followed by a float-to-int32 convert,
followed by the saturating int8 pack; the compute value 300.4 is
stored as 127. -/
theorem int8_convert_round_then_saturate
    (p : PackFlags) (gwvw sumIdx : Nat)
    (hhpa : p.hpa = true) (hga : p.ga ≠ GAcc.multipleBuffer)
    (hdest : p.dest = DType.int8) (hcomp : p.compute = DType.single)
    (hflag : p.applyAlpha = true) :
    hpaConvertModule p gwvw sumIdx =
      (List.range gwvw).flatMap (fun vi =>
        [PackInstr.rndneF32 (sumIdx + vi), PackInstr.cvtF32toI32 (sumIdx + vi)]) ∧
    hpaPackModule p = [PackInstr.packInt8] ∧
    int8StoredValue (1502 / 5) = 127 := by
  refine ⟨?_, ?_, ?_⟩
  · simp [hpaConvertModule, hhpa, hga, hdest, hcomp, hflag, convertData]
  · simp [hpaPackModule, hhpa, hga, hdest]
  · have hfloor : ⌊(1502 / 5 : ℚ)⌋ = 300 := by norm_num
    norm_num [int8StoredValue, rndneQ, satCastI8, hfloor]

theorem int8_convert_round_then_saturate_witness :
    hpaConvertModule ⟨true, GAcc.off, DType.int8, DType.single,
        false, false, true, false, false, false⟩ 1 0 =
      (List.range 1).flatMap (fun vi =>
        [PackInstr.rndneF32 (0 + vi), PackInstr.cvtF32toI32 (0 + vi)]) ∧
    hpaPackModule ⟨true, GAcc.off, DType.int8, DType.single,
        false, false, true, false, false, false⟩ = [PackInstr.packInt8] ∧
    int8StoredValue (1502 / 5) = 127 :=
  int8_convert_round_then_saturate _ 1 0 rfl (by decide) rfl rfl rfl

/-! ## C9/C10: the per-vi arithmetic stages of `_emitNonatomicAdd`.

Several stages (ScaleAlphaVec, lines 655-751; bias add, lines 762-787;
gradient multiply, lines 868-885; ScaleD, lines 887-902) share one
per-vi branch skeleton: a single-scalar route taken at the last vi
when `gwvw` is odd, an odd-vi route that is only an
`assert gwvw % 2 == 0`, and a packed two-lane route at even vi.
Unsupported compute data types raise `RuntimeError`
(`raise` at lines 750-751 and 786-787) or fail an `assert`
(lines 884-885, 901-902).  Errors are modelled as `Except.error` with
the message and the sub-vector index where the loop raises. -/

/-- Instruction markers for the per-vi stages. -/
inductive StageInstr where
  | cmpGtU32
  | cndMaskB32
  | mulF32S
  | mulPkF32
  | mulLoU32S
  | addF32
  | addPkF32
  deriving DecidableEq, Repr

/-- The shared per-vi branch skeleton: `if ((vi+1)==gwvw) and
((gwvw%2)==1): single; elif vi%2==1: assert; else: packed`. -/
inductive ViRoute where
  | single
  | oddAssert
  | packed
  deriving DecidableEq, Repr

def viRoute (gwvw vi : Nat) : ViRoute :=
  if vi + 1 = gwvw ∧ gwvw % 2 = 1 then ViRoute.single
  else if vi % 2 = 1 then ViRoute.oddAssert
  else ViRoute.packed

/-- One vi of the ScaleAlphaVec stage (lines 655-751): single-precision
and int32 compute types are supported; the single route emits the
zero-guard compare/select then one multiply, the packed route
guards both lanes then multiplies (one packed multiply for f32, two
scalar multiplies for i32); any other compute type raises. -/
def scaleAlphaVecVi (computeType : DType) (gwvw vi : Nat) :
    Except (String × Nat) (List StageInstr) :=
  if computeType = DType.single then
    match viRoute gwvw vi with
    | ViRoute.single =>
        Except.ok [StageInstr.cmpGtU32, StageInstr.cndMaskB32, StageInstr.mulF32S]
    | ViRoute.oddAssert =>
        if gwvw % 2 = 0 then Except.ok []
        else Except.error ("assert gwvw mod 2 == 0", vi)
    | ViRoute.packed =>
        Except.ok [StageInstr.cmpGtU32, StageInstr.cndMaskB32,
          StageInstr.cndMaskB32, StageInstr.mulPkF32]
  else if computeType = DType.int32 then
    match viRoute gwvw vi with
    | ViRoute.single =>
        Except.ok [StageInstr.cmpGtU32, StageInstr.cndMaskB32, StageInstr.mulLoU32S]
    | ViRoute.oddAssert =>
        if gwvw % 2 = 0 then Except.ok []
        else Except.error ("assert gwvw mod 2 == 0", vi)
    | ViRoute.packed =>
        Except.ok [StageInstr.cmpGtU32, StageInstr.cndMaskB32,
          StageInstr.cndMaskB32, StageInstr.mulLoU32S, StageInstr.mulLoU32S]
  else Except.error ("Unsupported scaleAlphaVec compute data type", vi)

/-- One vi of the bias-add stage (lines 762-787): only single-precision
compute is supported. -/
def biasAddVi (computeType : DType) (gwvw vi : Nat) :
    Except (String × Nat) (List StageInstr) :=
  if computeType = DType.single then
    match viRoute gwvw vi with
    | ViRoute.single => Except.ok [StageInstr.addF32]
    | ViRoute.oddAssert =>
        if gwvw % 2 = 0 then Except.ok []
        else Except.error ("assert gwvw mod 2 == 0", vi)
    | ViRoute.packed => Except.ok [StageInstr.addPkF32]
  else Except.error ("Unsupported bias compute data type", vi)

/-- One vi of the gradient multiply (lines 868-885). -/
def gradientMulVi (computeType : DType) (gwvw vi : Nat) :
    Except (String × Nat) (List StageInstr) :=
  if computeType = DType.single then
    match viRoute gwvw vi with
    | ViRoute.single => Except.ok [StageInstr.mulF32S]
    | ViRoute.oddAssert =>
        if gwvw % 2 = 0 then Except.ok []
        else Except.error ("assert gwvw mod 2 == 0", vi)
    | ViRoute.packed => Except.ok [StageInstr.mulPkF32]
  else Except.error ("Unsupported gradient type", vi)

/-- One vi of the ScaleD multiply (lines 887-902). -/
def scaleDVi (computeType : DType) (gwvw vi : Nat) :
    Except (String × Nat) (List StageInstr) :=
  if computeType = DType.single then
    match viRoute gwvw vi with
    | ViRoute.single => Except.ok [StageInstr.mulF32S]
    | ViRoute.oddAssert =>
        if gwvw % 2 = 0 then Except.ok []
        else Except.error ("assert gwvw mod 2 == 0", vi)
    | ViRoute.packed => Except.ok [StageInstr.mulPkF32]
  else Except.error ("Unsupported scaleD type", vi)

/-- Run a per-vi stage from sub-vector index `vi` for `n` more
indices, stopping at the first raised error, as the Python `for vi in
range(gwvw)` loop does. -/
def runVisFrom (step : Nat → Except (String × Nat) (List StageInstr)) (vi : Nat) :
    Nat → Except (String × Nat) (List StageInstr)
  | 0 => Except.ok []
  | Nat.succ n =>
      match step vi with
      | Except.error e => Except.error e
      | Except.ok l =>
          match runVisFrom step (vi + 1) n with
          | Except.error e => Except.error e
          | Except.ok l2 => Except.ok (l ++ l2)

/-- The whole `for vi in range(gwvw)` loop of one stage. -/
def runVis (step : Nat → Except (String × Nat) (List StageInstr)) (gwvw : Nat) :
    Except (String × Nat) (List StageInstr) :=
  runVisFrom step 0 gwvw

theorem runVisFrom_ok (step : Nat → Except (String × Nat) (List StageInstr)) :
    ∀ (n vi : Nat), (∀ v, vi ≤ v → v < vi + n → ∃ l, step v = Except.ok l) →
      ∃ l, runVisFrom step vi n = Except.ok l := by
  intro n
  induction n with
  | zero => intro vi _; exact ⟨[], rfl⟩
  | succ n ih =>
      intro vi h
      rcases h vi (Nat.le_refl vi) (by omega) with ⟨l, hl⟩
      rcases ih (vi + 1) (fun v hv1 hv2 => h v (by omega) (by omega)) with ⟨l2, hl2⟩
      refine ⟨l ++ l2, ?_⟩
      simp [runVisFrom, hl, hl2]

theorem runVisFrom_error_first (step : Nat → Except (String × Nat) (List StageInstr))
    (n vi : Nat) (e : String × Nat) (h0 : step vi = Except.error e) :
    runVisFrom step vi (n + 1) = Except.error e := by
  simp [runVisFrom, h0]

theorem runVisFrom_error_second (step : Nat → Except (String × Nat) (List StageInstr))
    (n vi : Nat) (e : String × Nat) (l0 : List StageInstr)
    (h0 : step vi = Except.ok l0) (h1 : step (vi + 1) = Except.error e) :
    runVisFrom step vi (n + 2) = Except.error e := by
  simp [runVisFrom, h0, h1]

theorem viRoute_one (gwvw : Nat) : viRoute gwvw 1 = ViRoute.oddAssert := by
  unfold viRoute
  split_ifs with h1 h2
  · exact absurd h1 (by omega)
  · rfl
  · exact absurd rfl h2

theorem viRoute_zero_of_one_lt (gwvw : Nat) (h : 1 < gwvw) :
    viRoute gwvw 0 = ViRoute.packed := by
  unfold viRoute
  split_ifs with h1 h2
  · exact absurd h1.1 (by omega)
  · simp at h2
  · rfl

theorem scaleAlphaVecVi_ok_of_even (computeType : DType) (gwvw v : Nat)
    (he : gwvw % 2 = 0)
    (hty : computeType = DType.single ∨ computeType = DType.int32) :
    ∃ l, scaleAlphaVecVi computeType gwvw v = Except.ok l := by
  rcases hty with hty | hty <;> subst hty
  · unfold scaleAlphaVecVi
    rw [if_pos rfl]
    cases hr : viRoute gwvw v with
    | single => exact ⟨_, rfl⟩
    | oddAssert => rw [if_pos he]; exact ⟨_, rfl⟩
    | packed => exact ⟨_, rfl⟩
  · unfold scaleAlphaVecVi
    rw [if_neg (by simp), if_pos rfl]
    cases hr : viRoute gwvw v with
    | single => exact ⟨_, rfl⟩
    | oddAssert => rw [if_pos he]; exact ⟨_, rfl⟩
    | packed => exact ⟨_, rfl⟩

theorem biasAddVi_ok_of_even (gwvw v : Nat) (he : gwvw % 2 = 0) :
    ∃ l, biasAddVi DType.single gwvw v = Except.ok l := by
  unfold biasAddVi
  rw [if_pos rfl]
  cases hr : viRoute gwvw v with
  | single => exact ⟨_, rfl⟩
  | oddAssert => rw [if_pos he]; exact ⟨_, rfl⟩
  | packed => exact ⟨_, rfl⟩

theorem gradientMulVi_ok_of_even (gwvw v : Nat) (he : gwvw % 2 = 0) :
    ∃ l, gradientMulVi DType.single gwvw v = Except.ok l := by
  unfold gradientMulVi
  rw [if_pos rfl]
  cases hr : viRoute gwvw v with
  | single => exact ⟨_, rfl⟩
  | oddAssert => rw [if_pos he]; exact ⟨_, rfl⟩
  | packed => exact ⟨_, rfl⟩

theorem scaleDVi_ok_of_even (gwvw v : Nat) (he : gwvw % 2 = 0) :
    ∃ l, scaleDVi DType.single gwvw v = Except.ok l := by
  unfold scaleDVi
  rw [if_pos rfl]
  cases hr : viRoute gwvw v with
  | single => exact ⟨_, rfl⟩
  | oddAssert => rw [if_pos he]; exact ⟨_, rfl⟩
  | packed => exact ⟨_, rfl⟩

theorem scaleAlphaVecVi_unsupported (computeType : DType) (gwvw v : Nat)
    (h1 : computeType ≠ DType.single) (h2 : computeType ≠ DType.int32) :
    scaleAlphaVecVi computeType gwvw v =
      Except.error ("Unsupported scaleAlphaVec compute data type", v) := by
  unfold scaleAlphaVecVi
  rw [if_neg h1, if_neg h2]

theorem biasAddVi_unsupported (computeType : DType) (gwvw v : Nat)
    (h1 : computeType ≠ DType.single) :
    biasAddVi computeType gwvw v =
      Except.error ("Unsupported bias compute data type", v) := by
  unfold biasAddVi
  rw [if_neg h1]

/-- C9: When an unsupported type combination is reached mid-emission,
the stage raises a fatal error at the point of discovery (sub-vector
index 0, before emitting anything) instead of silently producing
output: for an even vector width the ScaleAlphaVec stage succeeds
exactly when the compute data type is single-precision float or int32,
and the bias-add stage exactly when it is single-precision float. -/
theorem unsupported_type_raises_at_discovery (computeType : DType) (gwvw : Nat)
    (heven : gwvw % 2 = 0) (hpos : 0 < gwvw) :
    ((∃ l, runVis (scaleAlphaVecVi computeType gwvw) gwvw = Except.ok l) ↔
      (computeType = DType.single ∨ computeType = DType.int32)) ∧
    ((∃ l, runVis (biasAddVi computeType gwvw) gwvw = Except.ok l) ↔
      computeType = DType.single) ∧
    ((computeType ≠ DType.single ∧ computeType ≠ DType.int32) →
      runVis (scaleAlphaVecVi computeType gwvw) gwvw =
        Except.error ("Unsupported scaleAlphaVec compute data type", 0)) ∧
    (computeType ≠ DType.single →
      runVis (biasAddVi computeType gwvw) gwvw =
        Except.error ("Unsupported bias compute data type", 0)) := by
  obtain ⟨m, rfl⟩ : ∃ m, gwvw = m + 1 := ⟨gwvw - 1, by omega⟩
  refine ⟨⟨?_, ?_⟩, ⟨?_, ?_⟩, ?_, ?_⟩
  · intro hok
    by_contra hty
    rw [not_or] at hty
    have herr := runVisFrom_error_first (scaleAlphaVecVi computeType (m + 1)) m 0 _
      (scaleAlphaVecVi_unsupported computeType (m + 1) 0 hty.1 hty.2)
    rcases hok with ⟨l, hl⟩
    rw [runVis, herr] at hl
    exact Except.noConfusion hl
  · intro hty
    exact runVisFrom_ok _ (m + 1) 0
      (fun v _ _ => scaleAlphaVecVi_ok_of_even computeType (m + 1) v heven hty)
  · intro hok
    by_contra hty
    have herr := runVisFrom_error_first (biasAddVi computeType (m + 1)) m 0 _
      (biasAddVi_unsupported computeType (m + 1) 0 hty)
    rcases hok with ⟨l, hl⟩
    rw [runVis, herr] at hl
    exact Except.noConfusion hl
  · intro hty
    subst hty
    exact runVisFrom_ok _ (m + 1) 0
      (fun v _ _ => biasAddVi_ok_of_even (m + 1) v heven)
  · intro hty
    exact runVisFrom_error_first (scaleAlphaVecVi computeType (m + 1)) m 0 _
      (scaleAlphaVecVi_unsupported computeType (m + 1) 0 hty.1 hty.2)
  · intro hty
    exact runVisFrom_error_first (biasAddVi computeType (m + 1)) m 0 _
      (biasAddVi_unsupported computeType (m + 1) 0 hty)

theorem unsupported_type_raises_at_discovery_witness :
    runVis (biasAddVi DType.double 2) 2 =
      Except.error ("Unsupported bias compute data type", 0) :=
  (unsupported_type_raises_at_discovery DType.double 2 (by decide) (by decide)).2.2.2
    (by decide)

theorem scaleAlphaVecVi_zero_packed (gwvw : Nat) (h : 1 < gwvw) :
    scaleAlphaVecVi DType.single gwvw 0 = Except.ok
      [StageInstr.cmpGtU32, StageInstr.cndMaskB32, StageInstr.cndMaskB32,
        StageInstr.mulPkF32] := by
  unfold scaleAlphaVecVi
  rw [if_pos rfl, viRoute_zero_of_one_lt gwvw h]

theorem scaleAlphaVecVi_one_assert (gwvw : Nat) (hodd : gwvw % 2 = 1) :
    scaleAlphaVecVi DType.single gwvw 1 =
      Except.error ("assert gwvw mod 2 == 0", 1) := by
  unfold scaleAlphaVecVi
  rw [if_pos rfl, viRoute_one]
  rw [if_neg (by omega)]

theorem biasAddVi_zero_packed (gwvw : Nat) (h : 1 < gwvw) :
    biasAddVi DType.single gwvw 0 = Except.ok [StageInstr.addPkF32] := by
  unfold biasAddVi
  rw [if_pos rfl, viRoute_zero_of_one_lt gwvw h]

theorem biasAddVi_one_assert (gwvw : Nat) (hodd : gwvw % 2 = 1) :
    biasAddVi DType.single gwvw 1 =
      Except.error ("assert gwvw mod 2 == 0", 1) := by
  unfold biasAddVi
  rw [if_pos rfl, viRoute_one]
  rw [if_neg (by omega)]

theorem gradientMulVi_zero_packed (gwvw : Nat) (h : 1 < gwvw) :
    gradientMulVi DType.single gwvw 0 = Except.ok [StageInstr.mulPkF32] := by
  unfold gradientMulVi
  rw [if_pos rfl, viRoute_zero_of_one_lt gwvw h]

theorem gradientMulVi_one_assert (gwvw : Nat) (hodd : gwvw % 2 = 1) :
    gradientMulVi DType.single gwvw 1 =
      Except.error ("assert gwvw mod 2 == 0", 1) := by
  unfold gradientMulVi
  rw [if_pos rfl, viRoute_one]
  rw [if_neg (by omega)]

theorem scaleDVi_zero_packed (gwvw : Nat) (h : 1 < gwvw) :
    scaleDVi DType.single gwvw 0 = Except.ok [StageInstr.mulPkF32] := by
  unfold scaleDVi
  rw [if_pos rfl, viRoute_zero_of_one_lt gwvw h]

theorem scaleDVi_one_assert (gwvw : Nat) (hodd : gwvw % 2 = 1) :
    scaleDVi DType.single gwvw 1 =
      Except.error ("assert gwvw mod 2 == 0", 1) := by
  unfold scaleDVi
  rw [if_pos rfl, viRoute_one]
  rw [if_neg (by omega)]

/-- C10: For every non-atomic batch with a ScaleAlphaVec, bias-read,
gradient-multiply or ScaleD stage enabled and an odd vector width
greater than 1, emission fails the stage's internal
`assert gwvw % 2 == 0` at sub-vector index 1 instead of producing an
instruction stream; each of these per-vi stages succeeds exactly for
vector widths that are 1 or even. -/
theorem per_vi_stages_fail_assert_for_odd_gwvw (gwvw : Nat)
    (hodd : gwvw % 2 = 1) (hgt : 1 < gwvw) :
    (runVis (scaleAlphaVecVi DType.single gwvw) gwvw =
        Except.error ("assert gwvw mod 2 == 0", 1)) ∧
    (runVis (biasAddVi DType.single gwvw) gwvw =
        Except.error ("assert gwvw mod 2 == 0", 1)) ∧
    (runVis (gradientMulVi DType.single gwvw) gwvw =
        Except.error ("assert gwvw mod 2 == 0", 1)) ∧
    (runVis (scaleDVi DType.single gwvw) gwvw =
        Except.error ("assert gwvw mod 2 == 0", 1)) ∧
    (∀ g, g % 2 = 0 ∨ g = 1 →
      (∃ l, runVis (scaleAlphaVecVi DType.single g) g = Except.ok l) ∧
      (∃ l, runVis (biasAddVi DType.single g) g = Except.ok l) ∧
      (∃ l, runVis (gradientMulVi DType.single g) g = Except.ok l) ∧
      (∃ l, runVis (scaleDVi DType.single g) g = Except.ok l)) := by
  obtain ⟨m, rfl⟩ : ∃ m, gwvw = m + 2 := ⟨gwvw - 2, by omega⟩
  refine ⟨?_, ?_, ?_, ?_, ?_⟩
  · exact runVisFrom_error_second _ m 0 _ _
      (scaleAlphaVecVi_zero_packed (m + 2) hgt)
      (scaleAlphaVecVi_one_assert (m + 2) hodd)
  · exact runVisFrom_error_second _ m 0 _ _
      (biasAddVi_zero_packed (m + 2) hgt)
      (biasAddVi_one_assert (m + 2) hodd)
  · exact runVisFrom_error_second _ m 0 _ _
      (gradientMulVi_zero_packed (m + 2) hgt)
      (gradientMulVi_one_assert (m + 2) hodd)
  · exact runVisFrom_error_second _ m 0 _ _
      (scaleDVi_zero_packed (m + 2) hgt)
      (scaleDVi_one_assert (m + 2) hodd)
  · rintro g (hg | hg)
    · exact ⟨runVisFrom_ok _ g 0
          (fun v _ _ => scaleAlphaVecVi_ok_of_even DType.single g v hg (Or.inl rfl)),
        runVisFrom_ok _ g 0 (fun v _ _ => biasAddVi_ok_of_even g v hg),
        runVisFrom_ok _ g 0 (fun v _ _ => gradientMulVi_ok_of_even g v hg),
        runVisFrom_ok _ g 0 (fun v _ _ => scaleDVi_ok_of_even g v hg)⟩
    · subst hg
      exact ⟨⟨[StageInstr.cmpGtU32, StageInstr.cndMaskB32, StageInstr.mulF32S], rfl⟩,
        ⟨[StageInstr.addF32], rfl⟩,
        ⟨[StageInstr.mulF32S], rfl⟩,
        ⟨[StageInstr.mulF32S], rfl⟩⟩

theorem per_vi_stages_fail_assert_for_odd_gwvw_witness :
    runVis (biasAddVi DType.single 3) 3 =
      Except.error ("assert gwvw mod 2 == 0", 1) :=
  (per_vi_stages_fail_assert_for_odd_gwvw 3 (by decide) (by decide)).2.1

/-! ## C2: register-pool checkout/checkin balance (`_prolog`
lines 253-257 and 387-388, `_applyAlpha` lines 1366-1388, `_epilog`
lines 422-468). -/

/-- One element's registers in the Element Register Plan: address
registers (an `Option` is a register the plan did not allocate,
`None` in Python) and staging data registers per input kind (`0` is
the plan's no-register marker, compared with `!= 0` in `_epilog`). -/
structure ElementPlan where
  addrE : Option Nat
  addrD : Nat
  addrC : Nat
  addrBias : Option Nat
  addrSAV : Option Nat
  data : Nat
  dataBias : Nat
  dataE : Nat
  dataSAV : Nat
  deriving DecidableEq, Repr

def optCount (o : Option Nat) : Nat := if o.isSome then 1 else 0

/-- Address-register checkins of one element in `_epilog`
(lines 429-444): `addrEVgpr` if present, `addrDVgpr`, `addrCVgpr` when
distinct from `addrDVgpr`, `addrBiasVgpr` and
`addrScaleAlphaVecVgpr` if present. -/
def elemAddrCheckins (e : ElementPlan) : Nat :=
  optCount e.addrE + 1 + (if e.addrC ≠ e.addrD then 1 else 0)
    + optCount e.addrBias + optCount e.addrSAV

/-- Address checkins over the batch: skipped entirely when the batch
shares column address registers (`ss.sharedColDVgprs`, line 429). -/
def addrCheckins (sharedColDVgprs : Bool) (es : List ElementPlan) : Nat :=
  if sharedColDVgprs then 0 else (es.map elemAddrCheckins).sum

/-- The consecutive-dedup checkin count used for `elementData` and
`elementDataE` (lines 446-450 and 458-462): the `lastData` tracker
starts at `-1` and is updated only on nonzero registers; a register is
checked in when nonzero and different from the tracker. -/
def consecCheckins : Int → List Nat → Nat
  | _, [] => 0
  | last, d :: rest =>
      if d ≠ 0 then (if (d : Int) ≠ last then 1 else 0) + consecCheckins (d : Int) rest
      else consecCheckins last rest

/-- The dictionary-dedup checkin count used for `elementDataBias` and
`elementDataScaleAlphaVec` (lines 452-456 and 464-468): a register is
checked in when nonzero and not yet in the checked dictionary. -/
def dictCheckins : List Nat → List Nat → Nat
  | _, [] => 0
  | seen, d :: rest =>
      if d ≠ 0 then (if d ∉ seen then 1 else 0) + dictCheckins (d :: seen) rest
      else dictCheckins seen rest

/-- All pool checkins of `_epilog` (lines 422-468). -/
def epilogCheckins (sharedColDVgprs : Bool) (es : List ElementPlan) : Nat :=
  addrCheckins sharedColDVgprs es
  + consecCheckins (-1) (es.map (fun e => e.data))
  + dictCheckins [] (es.map (fun e => e.dataBias))
  + consecCheckins (-1) (es.map (fun e => e.dataE))
  + dictCheckins [] (es.map (fun e => e.dataSAV))

/-- The distinct nonzero staging registers of one input kind. -/
def distinctRegs (l : List Nat) : Finset Nat :=
  (l.filter (fun r => r ≠ 0)).toFinset

/-- Modelled from the spec: `ss.setupStoreElementsForBatch`, the
external Element Register Plan builder invoked at the start of
`_prolog` (line 203), is missing from the sources; per the spec's
register-pool model it checks out each element's address registers
(unless column address registers are shared across the batch) and one
staging-data register range per distinct nonzero staging register of
each input kind. -/
def setupCheckouts (sharedColDVgprs : Bool) (es : List ElementPlan) : Nat :=
  (if sharedColDVgprs then 0 else (es.map elemAddrCheckins).sum)
  + (distinctRegs (es.map (fun e => e.data))).card
  + (distinctRegs (es.map (fun e => e.dataBias))).card
  + (distinctRegs (es.map (fun e => e.dataE))).card
  + (distinctRegs (es.map (fun e => e.dataSAV))).card

/-- Lines 253-257: the out-of-bounds sentinel register is checked out
once per batch when buffer stores are used in an edge batch. -/
def bufferOOBCheckouts (bufferStore edge : Bool) : Nat :=
  if bufferStore && edge then 1 else 0

/-- Lines 387-388: the sentinel checkin at the end of the address
phase, under the same condition. -/
def bufferOOBCheckins (bufferStore edge : Bool) : Nat :=
  if bufferStore && edge then 1 else 0

/-- Temporary-register checkouts of `_applyAlpha`: one per sub-vector
value for single complex (line 1366), two aligned registers twice per
sub-vector value for double complex (lines 1377-1378); `nAlphaElems`
is the number of elements the inline alpha path visits. -/
def alphaTempCheckouts (ga : GAcc) (doApplyAlpha : Bool) (computeType : DType)
    (nAlphaElems gwvw : Nat) : Nat :=
  if ga = GAcc.multipleBuffer then 0
  else if doApplyAlpha then
    if computeType = DType.singleComplex then nAlphaElems * gwvw
    else if computeType = DType.doubleComplex then nAlphaElems * gwvw * 2
    else 0
  else 0

/-- Temporary-register checkins of `_applyAlpha`: line 1372 for single
complex, lines 1387-1388 for double complex, matching each checkout
within the same sub-vector iteration. -/
def alphaTempCheckins (ga : GAcc) (doApplyAlpha : Bool) (computeType : DType)
    (nAlphaElems gwvw : Nat) : Nat :=
  if ga = GAcc.multipleBuffer then 0
  else if doApplyAlpha then
    if computeType = DType.singleComplex then nAlphaElems * gwvw
    else if computeType = DType.doubleComplex then nAlphaElems * gwvw * 2
    else 0
  else 0

/-- All pool checkouts made during emission of one batch. -/
def emissionCheckouts (sharedColDVgprs bufferStore edge : Bool) (ga : GAcc)
    (doApplyAlpha : Bool) (computeType : DType) (gwvw : Nat)
    (es : List ElementPlan) : Nat :=
  setupCheckouts sharedColDVgprs es
  + bufferOOBCheckouts bufferStore edge
  + alphaTempCheckouts ga doApplyAlpha computeType es.length gwvw

/-- All pool checkins made by the time the batch's `_epilog`
completes. -/
def emissionCheckins (sharedColDVgprs bufferStore edge : Bool) (ga : GAcc)
    (doApplyAlpha : Bool) (computeType : DType) (gwvw : Nat)
    (es : List ElementPlan) : Nat :=
  epilogCheckins sharedColDVgprs es
  + bufferOOBCheckins bufferStore edge
  + alphaTempCheckins ga doApplyAlpha computeType es.length gwvw

/-- A register list is grouped when equal values appear consecutively:
whenever the head value reappears in the tail, the tail starts with
it.  The store-element plans allocate shared data registers to
consecutive elements, which is what makes `_epilog`'s
last-value-dedup checkin sound. -/
inductive Grouped : List Nat → Prop
  | nil : Grouped []
  | cons (a : Nat) (l : List Nat) (hl : Grouped l)
      (hmem : a ∈ l → ∃ t, l = a :: t) : Grouped (a :: l)

theorem card_insert_eq_erase_add_one (X : Finset Nat) (d : Nat) :
    (insert d X).card = (X.erase d).card + 1 := by
  by_cases hd : d ∈ X
  · rw [Finset.insert_eq_self.mpr hd, ← Finset.card_erase_add_one hd]
  · rw [Finset.card_insert_of_not_mem hd, Finset.erase_eq_of_not_mem hd]

theorem dictCheckins_card :
    ∀ (l : List Nat) (seen : List Nat),
      dictCheckins seen l =
        ((l.filter (fun r => r ≠ 0)).toFinset \ seen.toFinset).card := by
  intro l
  induction l with
  | nil => intro seen; simp [dictCheckins]
  | cons d rest ih =>
      intro seen
      by_cases hd : d = 0
      · subst hd
        rw [show dictCheckins seen (0 :: rest) = dictCheckins seen rest from by
          simp [dictCheckins]]
        rw [ih seen]
        have hfil0 : (0 :: rest).filter (fun r => r ≠ 0) =
            rest.filter (fun r => r ≠ 0) := by
          simp [List.filter_cons]
        rw [hfil0]
      · have hfil : (d :: rest).filter (fun r => r ≠ 0) =
            d :: rest.filter (fun r => r ≠ 0) := by
          simp [List.filter_cons, hd]
        rw [show dictCheckins seen (d :: rest) =
            (if d ∉ seen then 1 else 0) + dictCheckins (d :: seen) rest from by
          simp [dictCheckins, hd]]
        rw [ih (d :: seen), hfil]
        rw [List.toFinset_cons, List.toFinset_cons]
        by_cases hseen : d ∈ seen
        · have h1 : insert d seen.toFinset = seen.toFinset :=
            Finset.insert_eq_self.mpr (List.mem_toFinset.mpr hseen)
          have h2 : insert d (rest.filter (fun r => r ≠ 0)).toFinset \ seen.toFinset =
              (rest.filter (fun r => r ≠ 0)).toFinset \ seen.toFinset := by
            ext x
            simp only [Finset.mem_sdiff, Finset.mem_insert]
            constructor
            · rintro ⟨hx | hx, hx2⟩
              · exact absurd (hx ▸ List.mem_toFinset.mpr hseen) hx2
              · exact ⟨hx, hx2⟩
            · rintro ⟨hx, hx2⟩
              exact ⟨Or.inr hx, hx2⟩
          rw [h1, h2]
          simp [hseen]
        · have h1 : insert d (rest.filter (fun r => r ≠ 0)).toFinset \ seen.toFinset =
              insert d ((rest.filter (fun r => r ≠ 0)).toFinset \ seen.toFinset) := by
            ext x
            simp only [Finset.mem_sdiff, Finset.mem_insert]
            constructor
            · rintro ⟨hx | hx, hx2⟩
              · exact Or.inl hx
              · exact Or.inr ⟨hx, hx2⟩
            · rintro (hx | ⟨hx, hx2⟩)
              · exact ⟨Or.inl hx, hx ▸ fun hc => hseen (List.mem_toFinset.mp hc)⟩
              · exact ⟨Or.inr hx, hx2⟩
          have h2 : (rest.filter (fun r => r ≠ 0)).toFinset \ insert d seen.toFinset =
              ((rest.filter (fun r => r ≠ 0)).toFinset \ seen.toFinset).erase d := by
            rw [Finset.sdiff_insert]
          rw [h1, h2, card_insert_eq_erase_add_one]
          simp [hseen]
          omega

/-- Pure consecutive-boundary count on an already-filtered list. -/
def consecPure : Int → List Nat → Nat
  | _, [] => 0
  | last, d :: rest => (if (d : Int) ≠ last then 1 else 0) + consecPure (d : Int) rest

theorem consecCheckins_eq_pure :
    ∀ (l : List Nat) (last : Int),
      consecCheckins last l = consecPure last (l.filter (fun r => r ≠ 0)) := by
  intro l
  induction l with
  | nil => intro last; simp [consecCheckins, consecPure]
  | cons d rest ih =>
      intro last
      by_cases hd : d = 0
      · subst hd
        rw [show consecCheckins last (0 :: rest) = consecCheckins last rest from by
          simp [consecCheckins]]
        rw [ih last]
        have hfil0 : (0 :: rest).filter (fun r => r ≠ 0) =
            rest.filter (fun r => r ≠ 0) := by
          simp [List.filter_cons]
        rw [hfil0]
      · have hfil : (d :: rest).filter (fun r => r ≠ 0) =
            d :: rest.filter (fun r => r ≠ 0) := by
          simp [List.filter_cons, hd]
        rw [show consecCheckins last (d :: rest) =
            (if (d : Int) ≠ last then 1 else 0) + consecCheckins (d : Int) rest from by
          simp [consecCheckins, hd]]
        rw [hfil, consecPure, ih (d : Int)]

theorem consecPure_grouped_head :
    ∀ (t : List Nat) (a : Nat), Grouped (a :: t) →
      consecPure (a : Int) t + 1 = (a :: t).toFinset.card := by
  intro t
  induction t with
  | nil =>
      intro a _
      simp [consecPure]
  | cons b t2 ih =>
      intro a hg
      cases hg with
      | cons _ _ hgl hmem =>
          by_cases hab : a = b
          · subst hab
            rw [show consecPure (a : Int) (a :: t2) = consecPure (a : Int) t2 from by
              simp [consecPure]]
            rw [ih a hgl]
            simp [List.toFinset_cons]
          · have hne : ((b : Nat) : Int) ≠ (a : Int) := by
              intro hc
              exact hab (by exact_mod_cast hc.symm)
            rw [show consecPure (a : Int) (b :: t2) =
                1 + consecPure (b : Int) t2 from by simp [consecPure, hne]]
            have hanotin : a ∉ (b :: t2) := by
              intro hc
              rcases hmem hc with ⟨t3, ht3⟩
              exact hab (by injection ht3 with h1 _; exact h1.symm)
            rw [List.toFinset_cons (a := a),
              Finset.card_insert_of_not_mem (by simpa using hanotin)]
            rw [← ih b hgl]
            omega

theorem consecCheckins_card (l : List Nat)
    (hg : Grouped (l.filter (fun r => r ≠ 0))) :
    consecCheckins (-1) l = (distinctRegs l).card := by
  rw [consecCheckins_eq_pure l (-1)]
  unfold distinctRegs
  cases hfil : l.filter (fun r => r ≠ 0) with
  | nil => simp [consecPure]
  | cons a t =>
      rw [hfil] at hg
      rw [show consecPure (-1) (a :: t) = 1 + consecPure (a : Int) t from by
        simp only [consecPure]
        have : ((a : Nat) : Int) ≠ (-1 : Int) := by omega
        rw [if_pos this]]
      rw [← consecPure_grouped_head t a hg]
      omega

/-- C2: For every batch and every feature-flag combination, every
register checked out from the pool during emission — the per-element
address registers and staging data registers of the element plan, the
once-per-batch out-of-bounds sentinel, and the `_applyAlpha`
temporaries — is checked back in by the time the batch's `_epilog`
completes, so the number of pool checkouts equals the number of
checkins.  The data and E staging registers must be grouped
(equal registers on consecutive elements) for `_epilog`'s
last-value dedup to count them once each. -/
theorem pool_checkouts_eq_checkins (sharedColDVgprs bufferStore edge : Bool)
    (ga : GAcc) (doApplyAlpha : Bool) (computeType : DType) (gwvw : Nat)
    (es : List ElementPlan)
    (hdata : Grouped ((es.map (fun e => e.data)).filter (fun r => r ≠ 0)))
    (hdataE : Grouped ((es.map (fun e => e.dataE)).filter (fun r => r ≠ 0))) :
    emissionCheckouts sharedColDVgprs bufferStore edge ga doApplyAlpha
        computeType gwvw es =
      emissionCheckins sharedColDVgprs bufferStore edge ga doApplyAlpha
        computeType gwvw es := by
  unfold emissionCheckouts emissionCheckins setupCheckouts epilogCheckins
    addrCheckins bufferOOBCheckouts bufferOOBCheckins alphaTempCheckouts
    alphaTempCheckins
  rw [consecCheckins_card _ hdata, consecCheckins_card _ hdataE]
  rw [dictCheckins_card (es.map (fun e => e.dataBias)) [],
    dictCheckins_card (es.map (fun e => e.dataSAV)) []]
  simp only [List.toFinset_nil, Finset.sdiff_empty]
  unfold distinctRegs
  omega

theorem pool_checkouts_eq_checkins_witness :
    emissionCheckouts false true true GAcc.off true DType.singleComplex 2
        [⟨some 1, 2, 3, some 4, some 5, 10, 11, 12, 13⟩,
         ⟨some 6, 7, 8, none, none, 10, 14, 12, 13⟩,
         ⟨none, 9, 9, none, none, 15, 11, 0, 13⟩] =
      emissionCheckins false true true GAcc.off true DType.singleComplex 2
        [⟨some 1, 2, 3, some 4, some 5, 10, 11, 12, 13⟩,
         ⟨some 6, 7, 8, none, none, 10, 14, 12, 13⟩,
         ⟨none, 9, 9, none, none, 15, 11, 0, 13⟩] := by
  apply pool_checkouts_eq_checkins
  · show Grouped [10, 10, 15]
    refine Grouped.cons 10 [10, 15] (Grouped.cons 10 [15] ?_ ?_) ?_
    · exact Grouped.cons 15 [] Grouped.nil (by intro h; cases h)
    · intro h
      simp at h
    · intro _
      exact ⟨[15], rfl⟩
  · show Grouped [12, 12]
    refine Grouped.cons 12 [12] (Grouped.cons 12 [] Grouped.nil ?_) ?_
    · intro h
      cases h
    · intro _
      exact ⟨[], rfl⟩

end GlobalWriteBatch
